import Mathlib

/-!
Shallow embedding of `run_pmd_analysis.py`: a script that invokes the PMD
static analyzer and summarizes its XML report into a per-file
complexity / line-count table.

The embedding models:
  * the XML report as a list of file elements, each with a list of
    violation elements (attribute `rule`, optional text body);
  * the filesystem as a record of the three operations the script uses
    (`os.path.normpath`, `os.path.exists`, reading a file and counting
    its lines in permissive text mode);
  * the regex `re.search(r"cognitive complexity of (\d+)", msg)` as a
    leftmost-match scan over the character list (ASCII digits);
  * `parse_and_summarize` as a function from the report-file state and
    the filesystem to an outcome record: the messages printed, the
    summary text written (or `none` when nothing is written), and
    whether an uncaught exception propagated.
-/

namespace PmdAnalysis

/-- A `<violation>` element of the PMD report: `rule` attribute and
optional text body (`ElementTree` gives `None` for an empty element). -/
structure Violation where
  rule : String
  text : Option String
deriving Repr, DecidableEq

/-- A `<file>` element of the PMD report: `name` attribute (the file path)
and its violation children. -/
structure FileElem where
  name : String
  violations : List Violation
deriving Repr, DecidableEq

/-- State of the report file when `parse_and_summarize` runs: absent,
present but not well-formed XML, or well-formed with the given
`<file>` elements. -/
inductive ReportFile where
  | absent
  | malformed
  | wellFormed (files : List FileElem)
deriving Repr, DecidableEq

/-- Result of `count_lines_in_file`: a line count or one of the two
sentinel strings. -/
inductive LocResult where
  | lines (n : Nat)
  | fileNotFound
  | errorReading
deriving Repr, DecidableEq

/-- The filesystem operations used by the script. `readLines p` models
opening `p` in text mode with `errors='replace'` and counting lines:
it yields the line count, or an error for OS-level read failures
(decoding never fails because undecodable bytes are replaced). -/
structure FS where
  normpath : String → String
  pathExists : String → Bool
  readLines : String → Except Unit Nat

/-- Python `str.strip()` whitespace (ASCII part). -/
def isStripChar (c : Char) : Bool :=
  c = ' ' || c = '\t' || c = '\n' || c = '\x0b' || c = '\x0c' || c = '\r'

/-- Python `str.strip()` on a character list. -/
def pyStrip (s : List Char) : List Char :=
  ((s.dropWhile isStripChar).reverse.dropWhile isStripChar).reverse

/-- The literal part of the regex `cognitive complexity of (\d+)`. -/
def complexityPattern : List Char := "cognitive complexity of ".data

/-- Value of a nonempty ASCII digit run, as `int()` computes it. -/
def digitsToNat (ds : List Char) : Nat :=
  ds.foldl (fun acc c => acc * 10 + (c.toNat - 48)) 0

/-- `re.search(r"cognitive complexity of (\d+)", s)`: scan left to right
for the first position where the literal pattern is followed by at least
one digit; the group is the maximal digit run there ( `\d+` is greedy). -/
def searchComplexity : List Char → Option Nat
  | [] => none
  | c :: rest =>
    if complexityPattern.isPrefixOf (c :: rest) then
      let ds := ((c :: rest).drop complexityPattern.length).takeWhile Char.isDigit
      if ds.isEmpty then searchComplexity rest else some (digitsToNat ds)
    else searchComplexity rest

/-- `message = violation.text.strip() if violation.text else ""`
(`None` and the empty string are falsy). -/
def violationMessage (v : Violation) : List Char :=
  match v.text with
  | none => []
  | some t => if t = "" then [] else pyStrip t.data

/-- One iteration of the complexity loop body:
`if rule == 'CognitiveComplexity': ... if match: total += int(...)`. -/
def complexityStep (acc : Nat) (v : Violation) : Nat :=
  if v.rule = "CognitiveComplexity" then
    match searchComplexity (violationMessage v) with
    | some n => acc + n
    | none => acc
  else acc

/-- `total_complexity` accumulated over a file element's violations. -/
def totalComplexity (vs : List Violation) : Nat :=
  vs.foldl complexityStep 0

/-- The spec's wording of the invariant, as its own definition: the sum of
the extracted values over exactly the violations carrying the recognized
rule identifier (a violation whose message has no parsable number
contributes 0). -/
def specComplexity (vs : List Violation) : Nat :=
  (((vs.filter (fun v => v.rule = "CognitiveComplexity")).map
    (fun v => (searchComplexity (violationMessage v)).getD 0)).sum)

/-- `count_lines_in_file`: normalize the path, check existence, read and
count lines; any read failure is caught and becomes a sentinel. -/
def count_lines_in_file (fs : FS) (filepath : String) : LocResult :=
  let normalized := fs.normpath filepath
  if fs.pathExists normalized then
    match fs.readLines normalized with
    | .ok n => .lines n
    | .error _ => .errorReading
  else .fileNotFound

/-- Per-file record stored in the `file_data` dictionary. -/
structure FileData where
  complexity : Nat
  loc : LocResult
deriving Repr, DecidableEq

/-- The record built for one file element. -/
def mkFileData (fs : FS) (fe : FileElem) : FileData :=
  ⟨totalComplexity fe.violations, count_lines_in_file fs fe.name⟩

/-- Python dict assignment `m[k] = v`: replace in place when the key is
present, append otherwise. -/
def insertFD (m : List (String × FileData)) (k : String) (v : FileData) :
    List (String × FileData) :=
  if m.any (fun p => p.1 = k) then
    m.map (fun p => if p.1 = k then (k, v) else p)
  else
    m ++ [(k, v)]

/-- Dictionary lookup `m[k]` (as an `Option`). -/
def lookupFD : List (String × FileData) → String → Option FileData
  | [], _ => none
  | p :: rest, key => if p.1 = key then some p.2 else lookupFD rest key

/-- `m.keys()` in insertion order. -/
def fdKeys (m : List (String × FileData)) : List String := m.map Prod.fst

/-- The `for file_elem in root.findall('pmd:file', ns)` loop building
`file_data`. -/
def buildFileData (fs : FS) (files : List FileElem) :
    List (String × FileData) :=
  files.foldl (fun m fe => insertFD m fe.name (mkFileData fs fe)) []

/-- Python `f"{s:<w}"`: pad with spaces on the right to width `w`. -/
def padRight (s : String) (w : Nat) : String :=
  s ++ String.mk (List.replicate (w - s.length) ' ')

/-- String form of the line-count column (`str()` of an int or of the
sentinel). -/
def locToString : LocResult → String
  | .lines n => toString n
  | .fileNotFound => "File Not Found"
  | .errorReading => "Error Reading File"

/-- The fixed part of the summary: title, underline, column header line,
and the 95-dash separator rule. -/
def headerText : String :=
  "Project Structure & Complexity Report\n" ++
  "=====================================\n" ++
  padRight "File Path" 60 ++ " | " ++ padRight "Complexity" 12 ++
    " | " ++ "Lines of Code\n" ++
  String.mk (List.replicate 95 '-') ++ "\n"

/-- One data row of the summary. -/
def rowLine (filename : String) (d : FileData) : String :=
  padRight filename 60 ++ " | " ++ padRight (toString d.complexity) 12 ++
    " | " ++ locToString d.loc ++ "\n"

/-- `sorted(file_data.keys())`. -/
def sortedKeys (m : List (String × FileData)) : List String :=
  List.insertionSort (fun a b => a ≤ b) (fdKeys m)

/-- The full text written to the summary file. The `none` branch of the
lookup is unreachable: every sorted key is a key of the dictionary. -/
def summaryText (fs : FS) (files : List FileElem) : String :=
  let fd := buildFileData fs files
  headerText ++
    String.join ((sortedKeys fd).map (fun filename =>
      match lookupFD fd filename with
      | some d => rowLine filename d
      | none => ""))

/-- Observable outcome of `parse_and_summarize`: messages printed, the
content written to the output file (`none` when the file is untouched),
and whether an uncaught exception propagated out of the function. -/
structure SummarizeOutcome where
  printed : List String
  output : Option String
  raised : Bool
deriving Repr, DecidableEq

/-- `parse_and_summarize`: an absent report is detected up front (print
and return); a malformed report makes `ET.parse` raise `ParseError`,
which nothing catches; a well-formed report is summarized and written. -/
def parse_and_summarize (fs : FS) (rep : ReportFile)
    (report_file : String := "pmd-report.xml")
    (output_file : String := "complexity-summary.txt") : SummarizeOutcome :=
  match rep with
  | .absent =>
      ⟨["Error: " ++ report_file ++ " not found."], none, false⟩
  | .malformed =>
      ⟨[], none, true⟩
  | .wellFormed files =>
      ⟨["Summary generated at " ++ output_file],
        some (summaryText fs files), false⟩

/-- Observable outcome of `run_pmd_command`. -/
structure RunOutcome where
  printed : List String
  raised : Bool
deriving Repr, DecidableEq

/-- `run_pmd_command`, as a function of the subprocess return code:
`subprocess.run(..., check=True)` raises `CalledProcessError` exactly on
a nonzero code; the handler prints one message for positive codes and
another otherwise, and returns normally in both branches. -/
def run_pmd_command (returncode : Int)
    (src_dir : String := "./src")
    (report_file : String := "pmd-report.xml") : RunOutcome :=
  let execMsg := "Executing PMD analysis on " ++ src_dir ++ "..."
  if returncode = 0 then
    ⟨[execMsg, "Analysis complete. Report generated at " ++ report_file],
      false⟩
  else if returncode > 0 then
    ⟨[execMsg, "PMD finished with violations (Exit code " ++
        toString returncode ++ "). Proceeding to parsing."], false⟩
  else
    ⟨[execMsg, "Error running PMD: CalledProcessError"], false⟩

/-- A concrete filesystem on which no path exists (used for closed
instances of the theorems). -/
def fsNone : FS := ⟨id, fun _ => false, fun _ => .error ()⟩

/-- Violations of §8's example: two recognized-rule messages (3 and 5)
plus one violation of an unrelated rule. -/
def exampleC1Violations : List Violation :=
  [⟨"CognitiveComplexity", some "cognitive complexity of 3"⟩,
   ⟨"CognitiveComplexity", some "cognitive complexity of 5"⟩,
   ⟨"ApexDoc", some "cognitive complexity of 100"⟩]

/-- Two file elements sharing one path: the dictionary keeps the later
one. -/
def exampleDupFiles : List FileElem :=
  [⟨"a.cls", [⟨"CognitiveComplexity", some "cognitive complexity of 3"⟩]⟩,
   ⟨"a.cls", [⟨"CognitiveComplexity", some "cognitive complexity of 5"⟩]⟩]

theorem complexityStep_zero_add (acc : Nat) (v : Violation) :
    complexityStep acc v = acc + complexityStep 0 v := by
  unfold complexityStep
  by_cases hr : v.rule = "CognitiveComplexity"
  · simp only [hr, if_true]
    cases hs : searchComplexity (violationMessage v) <;> simp
  · simp [hr]

theorem foldl_complexityStep (vs : List Violation) :
    ∀ acc : Nat, vs.foldl complexityStep acc = acc + vs.foldl complexityStep 0 := by
  induction vs with
  | nil => intro acc; simp
  | cons v vs ih =>
    intro acc
    simp only [List.foldl_cons]
    rw [ih (complexityStep acc v), ih (complexityStep 0 v),
      complexityStep_zero_add acc v, Nat.add_assoc]

theorem totalComplexity_eq_spec (vs : List Violation) :
    totalComplexity vs = specComplexity vs := by
  induction vs with
  | nil => rfl
  | cons v vs ih =>
    unfold totalComplexity at ih ⊢
    simp only [List.foldl_cons]
    rw [foldl_complexityStep, ih]
    unfold specComplexity
    by_cases hr : v.rule = "CognitiveComplexity"
    · have hstep : complexityStep 0 v =
          (searchComplexity (violationMessage v)).getD 0 := by
        unfold complexityStep
        rw [if_pos hr]
        cases hs : searchComplexity (violationMessage v) <;> simp
      simp [List.filter_cons, hr, hstep]
    · have hstep : complexityStep 0 v = 0 := by
        unfold complexityStep
        rw [if_neg hr]
      simp [List.filter_cons, hr, hstep]

/-- C1: the complexity recorded for a file element is the sum of the
numbers extracted (pattern "cognitive complexity of N") from exactly its
violations whose rule is `CognitiveComplexity`; other rules and
unparsable messages contribute 0, and in particular the §8 example
(messages with 3 and 5 on the recognized rule plus an unrelated-rule
violation) records exactly 8. -/
theorem complexity_recorded_is_filtered_sum :
    (∀ (fs : FS) (fe : FileElem),
      (mkFileData fs fe).complexity = specComplexity fe.violations) ∧
    totalComplexity exampleC1Violations = 8 :=
  ⟨fun _ fe => totalComplexity_eq_spec fe.violations, by decide⟩

theorem lookupFD_map_replace_self (m : List (String × FileData))
    (k : String) (v : FileData)
    (h : m.any (fun p => p.1 = k) = true) :
    lookupFD (m.map (fun p => if p.1 = k then (k, v) else p)) k = some v := by
  induction m with
  | nil => simp at h
  | cons p rest ih =>
    obtain ⟨a, b⟩ := p
    by_cases hp : a = k
    · simp [lookupFD, hp]
    · have hrest : rest.any (fun p => p.1 = k) = true := by
        simpa [hp] using h
      simpa [lookupFD, hp] using ih hrest

theorem lookupFD_append_single_self (m : List (String × FileData))
    (k : String) (v : FileData)
    (h : m.any (fun p => p.1 = k) = false) :
    lookupFD (m ++ [(k, v)]) k = some v := by
  induction m with
  | nil => simp [lookupFD]
  | cons p rest ih =>
    obtain ⟨a, b⟩ := p
    have hp : ¬a = k := by
      intro hak
      simp [hak] at h
    have hrest : rest.any (fun p => p.1 = k) = false := by
      simpa [hp] using h
    simpa [lookupFD, hp] using ih hrest

theorem lookupFD_insertFD_self (m : List (String × FileData))
    (k : String) (v : FileData) :
    lookupFD (insertFD m k v) k = some v := by
  unfold insertFD
  by_cases h : m.any (fun p => p.1 = k) = true
  · rw [if_pos h]
    exact lookupFD_map_replace_self m k v h
  · rw [if_neg h]
    refine lookupFD_append_single_self m k v ?_
    cases hx : m.any (fun p => p.1 = k)
    · rfl
    · exact absurd hx h

theorem lookupFD_map_replace_ne (m : List (String × FileData))
    (k : String) (v : FileData) (key : String) (h : key ≠ k) :
    lookupFD (m.map (fun p => if p.1 = k then (k, v) else p)) key =
      lookupFD m key := by
  induction m with
  | nil => rfl
  | cons p rest ih =>
    obtain ⟨a, b⟩ := p
    have hk : ¬k = key := fun hkk => h hkk.symm
    by_cases hp : a = k
    · have hpk : ¬a = key := by rw [hp]; exact hk
      simpa [lookupFD, hp, hk, hpk] using ih
    · by_cases hpkey : a = key
      · have hkk : ¬key = k := fun hq => hk hq.symm
        simp [lookupFD, hp, hpkey, hkk]
      · simpa [lookupFD, hp, hpkey] using ih

theorem lookupFD_append_single_ne (m : List (String × FileData))
    (k : String) (v : FileData) (key : String) (h : key ≠ k) :
    lookupFD (m ++ [(k, v)]) key = lookupFD m key := by
  induction m with
  | nil =>
    have hk : ¬k = key := fun hkk => h hkk.symm
    simp [lookupFD, hk]
  | cons p rest ih =>
    obtain ⟨a, b⟩ := p
    by_cases hpkey : a = key
    · simp [lookupFD, hpkey]
    · simpa [lookupFD, hpkey] using ih

theorem lookupFD_insertFD_ne (m : List (String × FileData))
    (k : String) (v : FileData) (key : String) (h : key ≠ k) :
    lookupFD (insertFD m k v) key = lookupFD m key := by
  unfold insertFD
  split
  · exact lookupFD_map_replace_ne m k v key h
  · exact lookupFD_append_single_ne m k v key h

theorem lookupFD_foldl (fs : FS) (files : List FileElem) :
    ∀ (m : List (String × FileData)) (key : String),
      lookupFD
          (files.foldl (fun m fe => insertFD m fe.name (mkFileData fs fe)) m)
          key =
        match files.reverse.find? (fun fe => fe.name = key) with
        | some fe => some (mkFileData fs fe)
        | none => lookupFD m key := by
  induction files with
  | nil => intro m key; rfl
  | cons fe files ih =>
    intro m key
    simp only [List.foldl_cons, List.reverse_cons, List.find?_append]
    rw [ih]
    cases hf : files.reverse.find? (fun fe => fe.name = key) with
    | some x => simp [Option.or]
    | none =>
      simp only [Option.or]
      by_cases hk : fe.name = key
      · subst hk
        simp [List.find?, lookupFD_insertFD_self]
      · have hk2 : key ≠ fe.name := fun hkk => hk hkk.symm
        simp [List.find?, hk, lookupFD_insertFD_ne m fe.name _ key hk2]

theorem lookupFD_buildFileData (fs : FS) (files : List FileElem)
    (key : String) :
    lookupFD (buildFileData fs files) key =
      (files.reverse.find? (fun fe => fe.name = key)).map
        (fun fe => mkFileData fs fe) := by
  unfold buildFileData
  rw [lookupFD_foldl]
  cases hf : files.reverse.find? (fun fe => fe.name = key) <;> simp [lookupFD]

theorem fdKeys_map_replace (m : List (String × FileData))
    (k : String) (v : FileData) :
    fdKeys (m.map (fun p => if p.1 = k then (k, v) else p)) = fdKeys m := by
  unfold fdKeys
  rw [List.map_map]
  refine List.map_congr_left ?_
  intro p _
  by_cases hp : p.1 = k
  · simp [hp]
  · simp [hp]

theorem mem_fdKeys_iff_any (m : List (String × FileData)) (key : String) :
    key ∈ fdKeys m ↔ m.any (fun p => p.1 = key) = true := by
  simp only [fdKeys, List.any_eq_true, List.mem_map, decide_eq_true_eq]

theorem fdKeys_insertFD (m : List (String × FileData))
    (k : String) (v : FileData) :
    fdKeys (insertFD m k v) =
      if m.any (fun p => p.1 = k) then fdKeys m else fdKeys m ++ [k] := by
  unfold insertFD
  split
  · exact fdKeys_map_replace m k v
  · simp [fdKeys]

theorem mem_fdKeys_insertFD (m : List (String × FileData))
    (k : String) (v : FileData) (key : String) :
    key ∈ fdKeys (insertFD m k v) ↔ key ∈ fdKeys m ∨ key = k := by
  rw [fdKeys_insertFD]
  split
  · rename_i ha
    constructor
    · exact Or.inl
    · rintro (hm | rfl)
      · exact hm
      · exact (mem_fdKeys_iff_any m key).2 ha
  · simp [List.mem_append]

theorem nodup_fdKeys_insertFD (m : List (String × FileData))
    (k : String) (v : FileData) (h : (fdKeys m).Nodup) :
    (fdKeys (insertFD m k v)).Nodup := by
  rw [fdKeys_insertFD]
  split
  · exact h
  · rename_i ha
    have hk : k ∉ fdKeys m := fun hm =>
      ha ((mem_fdKeys_iff_any m k).1 hm)
    simp [List.nodup_append, h, List.Disjoint]
    intro a hmem heq
    exact hk (heq ▸ hmem)

theorem nodup_fdKeys_foldl (fs : FS) (files : List FileElem) :
    ∀ m : List (String × FileData), (fdKeys m).Nodup →
      (fdKeys (files.foldl
        (fun m fe => insertFD m fe.name (mkFileData fs fe)) m)).Nodup := by
  induction files with
  | nil => intro m h; exact h
  | cons fe files ih =>
    intro m h
    exact ih _ (nodup_fdKeys_insertFD m fe.name (mkFileData fs fe) h)

theorem nodup_fdKeys_buildFileData (fs : FS) (files : List FileElem) :
    (fdKeys (buildFileData fs files)).Nodup :=
  nodup_fdKeys_foldl fs files [] List.nodup_nil

theorem mem_fdKeys_foldl (fs : FS) (files : List FileElem) :
    ∀ (m : List (String × FileData)) (key : String),
      key ∈ fdKeys (files.foldl
          (fun m fe => insertFD m fe.name (mkFileData fs fe)) m) ↔
        key ∈ fdKeys m ∨ key ∈ files.map (fun fe => fe.name) := by
  induction files with
  | nil => intro m key; simp
  | cons fe files ih =>
    intro m key
    simp only [List.foldl_cons, List.map_cons, List.mem_cons]
    rw [ih, mem_fdKeys_insertFD]
    tauto

theorem mem_fdKeys_buildFileData (fs : FS) (files : List FileElem)
    (key : String) :
    key ∈ fdKeys (buildFileData fs files) ↔
      key ∈ files.map (fun fe => fe.name) := by
  unfold buildFileData
  rw [mem_fdKeys_foldl]
  simp [fdKeys]

theorem sortedKeys_perm (m : List (String × FileData)) :
    (sortedKeys m).Perm (fdKeys m) :=
  List.perm_insertionSort _ _

theorem sortedKeys_sorted_le (m : List (String × FileData)) :
    List.Sorted (fun a b : String => a ≤ b) (sortedKeys m) :=
  List.sorted_insertionSort _ _

theorem sortedKeys_nodup (fs : FS) (files : List FileElem) :
    (sortedKeys (buildFileData fs files)).Nodup :=
  ((sortedKeys_perm (buildFileData fs files)).nodup_iff).2
    (nodup_fdKeys_buildFileData fs files)

theorem sortedKeys_pairwise_lt (fs : FS) (files : List FileElem) :
    List.Pairwise (fun a b : String => a < b)
      (sortedKeys (buildFileData fs files)) :=
  (sortedKeys_sorted_le (buildFileData fs files)).lt_of_le
    (sortedKeys_nodup fs files)

/-- A file element not present on disk, for closed instances. -/
def exampleC4Files : List FileElem := [⟨"a.cls", []⟩]

/-- C2 (counterexample): the claim says a malformed report is reported
(printed) rather than raised; on the code, `ET.parse` of a malformed
report raises `ParseError` with nothing catching it, and no message is
printed. -/
theorem malformed_report_raises_uncaught :
    (parse_and_summarize fsNone ReportFile.malformed "pmd-report.xml"
        "complexity-summary.txt").raised = true ∧
    (parse_and_summarize fsNone ReportFile.malformed "pmd-report.xml"
        "complexity-summary.txt").printed = [] :=
  ⟨rfl, rfl⟩

/-- C2 (amended): the absent-file case prints a message and returns
early without writing output; the malformed-document case raises the
parse error uncaught (nothing printed, nothing written). -/
theorem report_absent_reported_malformed_raises :
    ∀ (fs : FS) (rf o : String),
      parse_and_summarize fs ReportFile.absent rf o =
        ⟨["Error: " ++ rf ++ " not found."], none, false⟩ ∧
      parse_and_summarize fs ReportFile.malformed rf o = ⟨[], none, true⟩ :=
  fun _ _ _ => ⟨rfl, rfl⟩

/-- C3: the data rows of the summary appear in strictly ascending
lexicographic order of file path, for every filesystem and every order
of the file elements in the report. -/
theorem summary_rows_sorted_strictly_ascending :
    ∀ (fs : FS) (files : List FileElem),
      List.Pairwise (fun a b : String => a < b)
        (sortedKeys (buildFileData fs files)) :=
  sortedKeys_pairwise_lt

/-- C4: a file path from the report that does not exist on disk (after
path normalization) still gets a row: its key is among the emitted row
keys and its recorded line count is the sentinel `File Not Found`. -/
theorem missing_file_sentinel_row_emitted (fs : FS) (files : List FileElem)
    (fe : FileElem) (hmem : fe ∈ files)
    (hnx : fs.pathExists (fs.normpath fe.name) = false) :
    fe.name ∈ sortedKeys (buildFileData fs files) ∧
    ∃ d, lookupFD (buildFileData fs files) fe.name = some d ∧
      d.loc = LocResult.fileNotFound := by
  constructor
  · exact (sortedKeys_perm (buildFileData fs files)).mem_iff.2
      ((mem_fdKeys_buildFileData fs files fe.name).2
        (List.mem_map_of_mem _ hmem))
  · rw [lookupFD_buildFileData]
    cases hf : files.reverse.find? (fun g => g.name = fe.name) with
    | none =>
      exact absurd (by simp)
        (List.find?_eq_none.1 hf fe (List.mem_reverse.2 hmem))
    | some x =>
      have hx : x.name = fe.name := by
        have := List.find?_some hf
        simpa using this
      refine ⟨mkFileData fs x, by simp, ?_⟩
      show count_lines_in_file fs x.name = LocResult.fileNotFound
      rw [hx]
      unfold count_lines_in_file
      simp [hnx]

theorem missing_file_sentinel_row_emitted_witness :
    (⟨"a.cls", []⟩ : FileElem) ∈ exampleC4Files ∧
    fsNone.pathExists (fsNone.normpath "a.cls") = false ∧
    ((⟨"a.cls", []⟩ : FileElem).name ∈
        sortedKeys (buildFileData fsNone exampleC4Files) ∧
      ∃ d, lookupFD (buildFileData fsNone exampleC4Files)
          (⟨"a.cls", []⟩ : FileElem).name = some d ∧
        d.loc = LocResult.fileNotFound) :=
  ⟨by decide, rfl,
    missing_file_sentinel_row_emitted fsNone exampleC4Files
      ⟨"a.cls", []⟩ (by decide) rfl⟩

/-- C5: when the report file is absent, `parse_and_summarize` prints the
not-found message, raises nothing, and writes no output at all. -/
theorem absent_report_early_return_no_output :
    ∀ (fs : FS) (rf o : String),
      parse_and_summarize fs ReportFile.absent rf o =
        ⟨["Error: " ++ rf ++ " not found."], none, false⟩ :=
  fun _ _ _ => rfl

/-- C6: every subprocess exit with a positive status is treated as
"ran, found issues, continue": the handler prints the violations
message and returns normally (nothing raised), without distinguishing
tool-not-found from violations-found. -/
theorem positive_exit_prints_and_continues (c : Int) (src rf : String)
    (h : 0 < c) :
    (run_pmd_command c src rf).raised = false ∧
    (run_pmd_command c src rf).printed =
      ["Executing PMD analysis on " ++ src ++ "...",
       "PMD finished with violations (Exit code " ++ toString c ++
         "). Proceeding to parsing."] := by
  have hne : ¬(c = 0) := by omega
  simp [run_pmd_command, hne, h]

theorem positive_exit_prints_and_continues_witness :
    (0 : Int) < 1 ∧
    ((run_pmd_command 1 "./src" "pmd-report.xml").raised = false ∧
      (run_pmd_command 1 "./src" "pmd-report.xml").printed =
        ["Executing PMD analysis on " ++ "./src" ++ "...",
         "PMD finished with violations (Exit code " ++ toString (1 : Int) ++
           "). Proceeding to parsing."]) :=
  ⟨by decide,
    positive_exit_prints_and_continues 1 "./src" "pmd-report.xml" (by decide)⟩

/-- C7: summarization is deterministic: two runs over the same report
state and filesystem observations produce identical outcomes (printed
messages, written bytes, and raise behavior). -/
theorem summarization_deterministic (fsa fsb : FS) (repa repb : ReportFile)
    (rf o : String)
    (hn : fsa.normpath = fsb.normpath)
    (he : fsa.pathExists = fsb.pathExists)
    (hr : fsa.readLines = fsb.readLines)
    (hrep : repa = repb) :
    parse_and_summarize fsa repa rf o = parse_and_summarize fsb repb rf o := by
  obtain ⟨n1, e1, r1⟩ := fsa
  obtain ⟨n2, e2, r2⟩ := fsb
  simp only at hn he hr
  subst hn
  subst he
  subst hr
  subst hrep
  rfl

theorem summarization_deterministic_witness :
    fsNone.normpath = fsNone.normpath ∧
    fsNone.pathExists = fsNone.pathExists ∧
    fsNone.readLines = fsNone.readLines ∧
    ReportFile.wellFormed [] = ReportFile.wellFormed [] ∧
    parse_and_summarize fsNone (ReportFile.wellFormed []) "pmd-report.xml"
        "complexity-summary.txt" =
      parse_and_summarize fsNone (ReportFile.wellFormed []) "pmd-report.xml"
        "complexity-summary.txt" :=
  ⟨rfl, rfl, rfl, rfl,
    summarization_deterministic fsNone fsNone (ReportFile.wellFormed [])
      (ReportFile.wellFormed []) "pmd-report.xml" "complexity-summary.txt"
      rfl rfl rfl rfl⟩

/-- C8: a well-formed report with no file elements produces exactly the
fixed header, the column header line, and the separator rule, with zero
data rows. -/
theorem empty_report_header_only :
    ∀ (fs : FS) (rf o : String),
      parse_and_summarize fs (ReportFile.wellFormed []) rf o =
        ⟨["Summary generated at " ++ o], some headerText, false⟩ := by
  intro fs rf o
  have h : summaryText fs [] = headerText := by
    unfold summaryText buildFileData sortedKeys fdKeys
    simp [List.insertionSort, String.join]
  simp [parse_and_summarize, h]

/-- C9: a path that appears as the name of several file elements keeps
only the last element's record: the dictionary lookup returns the record
built from the last element with that name, each emitted key occurs at
most once, and on the concrete duplicate example the stored complexity
is the last element's 5, not the sum 8. -/
theorem duplicate_path_last_element_wins :
    (∀ (fs : FS) (files : List FileElem) (key : String),
        lookupFD (buildFileData fs files) key =
          (files.reverse.find? (fun fe => fe.name = key)).map
            (fun fe => mkFileData fs fe)) ∧
    (∀ (fs : FS) (files : List FileElem) (key : String),
        List.count key (sortedKeys (buildFileData fs files)) ≤ 1) ∧
    lookupFD (buildFileData fsNone exampleDupFiles) "a.cls" =
      some ⟨5, LocResult.fileNotFound⟩ := by
  refine ⟨lookupFD_buildFileData, ?_, by decide⟩
  intro fs files key
  exact List.nodup_iff_count_le_one.1 (sortedKeys_nodup fs files) key

/-- C10: line counting is total: for every filesystem and path it yields
a (non-negative) line count or exactly one of the two sentinels, whose
rendered strings are "File Not Found" and "Error Reading File"; no
exception escapes to the caller. -/
theorem count_lines_total_three_outcomes :
    ∀ (fs : FS) (p : String),
      (∃ n, count_lines_in_file fs p = LocResult.lines n ∧
        locToString (LocResult.lines n) = toString n) ∨
      (count_lines_in_file fs p = LocResult.fileNotFound ∧
        locToString LocResult.fileNotFound = "File Not Found") ∨
      (count_lines_in_file fs p = LocResult.errorReading ∧
        locToString LocResult.errorReading = "Error Reading File") := by
  intro fs p
  cases h : count_lines_in_file fs p with
  | lines n => exact Or.inl ⟨n, rfl, rfl⟩
  | fileNotFound => exact Or.inr (Or.inl ⟨rfl, rfl⟩)
  | errorReading => exact Or.inr (Or.inr ⟨rfl, rfl⟩)

end PmdAnalysis
